import Mathlib

/-
Verification of the fmconnect signaling-server core: the participant
registry, BFS tree placement, close-path reassignment, rebalancing and the
message router.  The definitions below are a shallow embedding of the
JavaScript source: `src/server.js` (the cascade-relay variant with
heartbeat and auto-reassign) and the variants in `src/unnamed/part_005`
(the tree-relay close handler with an exclusion set, and the rebalancer).

Participant ids (UUID strings in the source) are modelled as `Nat`; the
registry (a JS `Map`, which iterates in insertion order) is modelled as an
insertion-ordered association list.  Loops that the source runs without a
visited set (the BFS over the children relation) are given explicit fuel:
a step function returns `none` exactly when some inner loop ran out of
fuel, so every theorem about a `some` result speaks about a terminating
run of the source code.
-/

set_option maxRecDepth 4000
set_option linter.unusedVariables false

/-- A participant record: field for field the object stored in `clients`
(`{ ws, role, parentId, children:Set, nodeLabel, lastSeen, backupParent, customId }`).
The transport handle `ws` carries no registry state and is omitted;
`children` keeps the insertion order of the JS `Set`. -/
structure Client where
  role : Option String
  parentId : Option Nat
  children : List Nat
  nodeLabel : String
  lastSeen : Nat
  backupParent : Option Nat
  customId : Option String
  deriving Repr, DecidableEq

/-- The registry `clients : Map id -> Client`, as an insertion-ordered
association list (JS `Map` iteration order is insertion order). -/
abbrev Reg := List (Nat × Client)

/-- `clients.get(k)`: first entry with the given key. -/
def lookup : Reg → Nat → Option Client
  | [], _ => none
  | (k', c) :: rest, k => if k' = k then some c else lookup rest k

/-- Mutate the entry at key `k` in place (first occurrence), as JS field
assignment on the object returned by `clients.get(k)` does.  Absent keys
are left untouched; every use in the handlers is guarded by a prior get. -/
def updateEntry (m : Reg) (k : Nat) (f : Client → Client) : Reg :=
  match m with
  | [] => []
  | (k', c) :: rest => if k' = k then (k', f c) :: rest else (k', c) :: updateEntry rest k f

/-- `clients.delete(k)`. -/
def eraseKey (m : Reg) (k : Nat) : Reg :=
  m.filter (fun p => p.1 ≠ k)

/-- `set.add(x)` on a JS `Set` held as an insertion-ordered list. -/
def addChild (l : List Nat) (x : Nat) : List Nat :=
  if x ∈ l then l else l ++ [x]

/-- `set.delete(x)`. -/
def removeChild (l : List Nat) (x : Nat) : List Nat :=
  l.filter (fun y => y ≠ x)

/-- CONFIG constant `MAX_CHILDREN_PER_NODE = 2`. -/
def MAX_CHILDREN_PER_NODE : Nat := 2

/-- CONFIG constant `ROOT_CHILD_LIMIT = 2`. -/
def ROOT_CHILD_LIMIT : Nat := 2

/-- The per-node limit `(c.role === "broadcaster") ? ROOT_CHILD_LIMIT : MAX_CHILDREN_PER_NODE`. -/
def roleLimit (c : Client) : Nat :=
  if c.role = some "broadcaster" then ROOT_CHILD_LIMIT else MAX_CHILDREN_PER_NODE

/-- `findRootBroadcaster()`: first entry in insertion order whose role is
`"broadcaster"`. -/
def findRootBroadcaster : Reg → Option Nat
  | [] => none
  | (id, c) :: rest =>
    if c.role = some "broadcaster" then some id else findRootBroadcaster rest

/-- Whether the node at `id` currently has spare capacity — the guard
`(c.children?.size || 0) < limit` read through `clients.get(id)`. -/
def hasCapacityAt (m : Reg) (id : Nat) : Bool :=
  match lookup m id with
  | none => false
  | some c => c.children.length < roleLimit c

/-- The queue loop of `bfsFindParent` in `src/server.js`: pop an id, skip
it if dead, return it if it has spare capacity, otherwise enqueue its
children.  The source loop has no visited set, so it is given fuel;
`none` means the fuel ran out. -/
def bfsLoop (m : Reg) : Nat → List Nat → Option (Option Nat)
  | 0, _ => none
  | _ + 1, [] => some none
  | fuel + 1, id :: q =>
    match lookup m id with
    | none => bfsLoop m fuel q
    | some c =>
      if c.children.length < roleLimit c then some (some id)
      else bfsLoop m fuel (q ++ c.children)

/-- `bfsFindParent()` from `src/server.js`: BFS from the root broadcaster
for the first node below its capacity; `null` when there is no broadcaster. -/
def bfsFindParent (m : Reg) (fuel : Nat) : Option (Option Nat) :=
  match findRootBroadcaster m with
  | none => some none
  | some root => bfsLoop m fuel [root]

/-- The queue loop of `findParentNode(exclude)` in the part_005 cascade
variant: ids in `exclude` are skipped at pop time and filtered at push
time. -/
def findParentNodeLoop (m : Reg) (exclude : List Nat) : Nat → List Nat → Option (Option Nat)
  | 0, _ => none
  | _ + 1, [] => some none
  | fuel + 1, id :: q =>
    if exclude.contains id then findParentNodeLoop m exclude fuel q
    else
      match lookup m id with
      | none => findParentNodeLoop m exclude fuel q
      | some c =>
        if c.children.length < roleLimit c then some (some id)
        else findParentNodeLoop m exclude fuel (q ++ c.children.filter (fun ch => !exclude.contains ch))

/-- `findParentNode(exclude)` from the part_005 cascade variant. -/
def findParentNode (m : Reg) (exclude : List Nat) (fuel : Nat) : Option (Option Nat) :=
  match findRootBroadcaster m with
  | none => some none
  | some root => findParentNodeLoop m exclude fuel [root]

/-- `chooseBackupParent(parentId)`: prefer the parent of the parent, else
the root broadcaster. -/
def chooseBackupParent (m : Reg) (parentId : Option Nat) : Option Nat :=
  match parentId with
  | none => findRootBroadcaster m
  | some pid =>
    match lookup m pid with
    | none => findRootBroadcaster m
    | some parent =>
      match parent.parentId with
      | some pp => some pp
      | none => findRootBroadcaster m

/-- Outbound frames the server can send, with the fields the claims are
about; `payload` bodies are carried verbatim as opaque strings. -/
inductive OutMsg where
  | registeredAsBroadcaster (id : Nat) (nodeLabel : String)
  | roomAssigned (nodeLabel : String) (parentId : Option Nat)
  | listenerJoined (id : Nat) (childNodeLabel : String)
  | reassigned (newParent : Option Nat)
  | childLeft (id : Nat) (nodeLabel : String)
  | relay (ty : String) (sender : Nat) (payload : String)
  | cmd (payload : String)
  | metadata (payload : String)
  | roomMessage (sender : Nat) (payload : String)
  deriving Repr, DecidableEq

/-- An outbound send: recipient id paired with the frame. -/
abbrev Sends := List (Nat × OutMsg)

/-- Inbound frames, one constructor per `type` string the handler
dispatches on; `handshake` keeps its `type` string because the relay
echoes it. -/
inductive InMsg where
  | heartbeat
  | register (role : Option String) (customId : Option String)
  | handshake (ty : String) (target : Option Nat) (payload : String)
  | cmd (payload : String)
  | metadata (payload : String)
  | roomMessage (payload : String)
  | other
  deriving Repr, DecidableEq

/-- JS `a || b` on an optional string field (absent and empty strings are
falsy). -/
def jsOr (s : Option String) (d : String) : String :=
  match s with
  | none => d
  | some v => if v = "" then d else v

/-- JS truthiness of an optional string. -/
def jsTruthy (s : Option String) : Bool :=
  match s with
  | none => false
  | some v => v ≠ ""

/-- `reassignChild(childId)` from `src/server.js`: clear the parent, BFS
for a new one, link and notify, then record a backup parent. -/
def reassignChild (m : Reg) (fuel : Nat) (childId : Nat) : Option (Reg × Sends) :=
  match lookup m childId with
  | none => some (m, [])
  | some child =>
    match bfsFindParent m fuel with
    | none => none
    | some none =>
      some (updateEntry m childId (fun c => { c with parentId := none }),
            [(childId, .reassigned none)])
    | some (some newParent) =>
      let m1 := updateEntry m childId (fun c => { c with parentId := some newParent })
      let m2 := updateEntry m1 newParent (fun c => { c with children := addChild c.children childId })
      let bp := chooseBackupParent m2 (some newParent)
      let m3 := updateEntry m2 childId (fun c => { c with backupParent := bp })
      some (m3, [(newParent, .listenerJoined childId child.nodeLabel),
                 (childId, .reassigned (some newParent))])

/-- The loop in the broadcaster branch of the register handler:
`for ([cid, c] of clients) if (c.role === "listener" && !c.parentId) reassignChild(cid)`,
iterating the key list while reading each entry from the current state. -/
def attachRootless (fuel : Nat) : List Nat → Reg → Option (Reg × Sends)
  | [], m => some (m, [])
  | cid :: rest, m =>
    match lookup m cid with
    | none => attachRootless fuel rest m
    | some c =>
      if c.role = some "listener" ∧ c.parentId = none then
        match reassignChild m fuel cid with
        | none => none
        | some (m', msgs) =>
          match attachRootless fuel rest m' with
          | none => none
          | some (m'', msgs') => some (m'', msgs ++ msgs')
      else attachRootless fuel rest m

/-- The first two lines of the register handler:
`entry.role = role || "listener"; if (customId) entry.customId = customId`. -/
def applyRegisterRole (m : Reg) (senderId : Nat) (role customId : Option String) : Reg :=
  updateEntry m senderId (fun c =>
    { c with role := some (jsOr role "listener"),
             customId := if jsTruthy customId then customId else c.customId })

/-- The `register` branch of the message handler in `src/server.js`
(lines 223-254): set the role, then either sweep rootless listeners under
the new broadcaster or place the listener by BFS. -/
def registerHandler (m : Reg) (fuel : Nat) (senderId : Nat)
    (role : Option String) (customId : Option String) : Option (Reg × Sends) :=
  match lookup m senderId with
  | none => none
  | some entry0 =>
    let newRole := jsOr role "listener"
    let m1 := applyRegisterRole m senderId role customId
    if newRole = "broadcaster" then
      let label := entry0.nodeLabel
      match attachRootless fuel (m1.map Prod.fst) m1 with
      | none => none
      | some (m2, msgs) =>
        some (m2, (senderId, .registeredAsBroadcaster senderId label) :: msgs)
    else
      match bfsFindParent m1 fuel with
      | none => none
      | some none =>
        let m2 := updateEntry m1 senderId (fun c =>
          { c with parentId := none, backupParent := none })
        some (m2, [(senderId, .roomAssigned entry0.nodeLabel none)])
      | some (some pid) =>
        let m2 := updateEntry m1 senderId (fun c => { c with parentId := some pid })
        let m3 := updateEntry m2 pid (fun c => { c with children := addChild c.children senderId })
        let bp := chooseBackupParent m3 (some pid)
        let m4 := updateEntry m3 senderId (fun c => { c with backupParent := bp })
        some (m4, [(senderId, .roomAssigned entry0.nodeLabel (some pid)),
                   (pid, .listenerJoined senderId entry0.nodeLabel)])

/-- The full inbound-message handler of `src/server.js` (lines 210-283):
heartbeat, register, offer/answer/candidate relay, broadcaster `cmd` and
`metadata` fan-out, `room-message` to children; anything else falls
through and is dropped.  A branch that dereferences a missing sender entry
(which would throw in the source) is `none`. -/
def handleMessage (m : Reg) (fuel now : Nat) (senderId : Nat) (msg : InMsg) :
    Option (Reg × Sends) :=
  match msg with
  | .heartbeat =>
    match lookup m senderId with
    | none => none
    | some _ => some (updateEntry m senderId (fun c => { c with lastSeen := now }), [])
  | .register role customId => registerHandler m fuel senderId role customId
  | .handshake ty target payload =>
    if (ty = "offer" ∨ ty = "answer" ∨ ty = "candidate") ∧ target.isSome then
      match target with
      | none => some (m, [])
      | some t =>
        match lookup m t with
        | none => some (m, [])
        | some _ => some (m, [(t, .relay ty senderId payload)])
    else some (m, [])
  | .cmd payload =>
    match lookup m senderId with
    | none => none
    | some entry =>
      if entry.role = some "broadcaster" then
        some (m, m.map (fun p => (p.1, OutMsg.cmd payload)))
      else some (m, [])
  | .metadata payload =>
    match lookup m senderId with
    | none => none
    | some entry =>
      if entry.role = some "broadcaster" then
        some (m, m.map (fun p => (p.1, OutMsg.metadata payload)))
      else some (m, [])
  | .roomMessage payload =>
    match lookup m senderId with
    | none => some (m, [])
    | some e =>
      some (m, e.children.filterMap (fun ch =>
        (lookup m ch).map (fun _ => (ch, OutMsg.roomMessage senderId payload))))
  | .other => some (m, [])

/-- The per-child body of the close-handler loop in `src/server.js`
(lines 296-313): clear the parent, BFS (with no exclusion set) for a new
one, link and notify. -/
def closeReassignChild (m : Reg) (fuel dead ch : Nat) : Option (Reg × Sends) :=
  match lookup m ch with
  | none => some (m, [])
  | some child =>
    let m1 := updateEntry m ch (fun c => { c with parentId := none })
    match bfsFindParent m1 fuel with
    | none => none
    | some none => some (m1, [(ch, .reassigned none)])
    | some (some np) =>
      let m2 := updateEntry m1 ch (fun c => { c with parentId := some np })
      let m3 := updateEntry m2 np (fun c => { c with children := addChild c.children ch })
      let bp := chooseBackupParent m3 (some np)
      let m4 := updateEntry m3 ch (fun c => { c with backupParent := bp })
      some (m4, [(np, .listenerJoined ch child.nodeLabel),
                 (ch, .reassigned (some np))])

/-- Fold of `closeReassignChild` over the snapshot of the dead node's
children. -/
def closeChildrenLoop (fuel dead : Nat) : List Nat → Reg → Option (Reg × Sends)
  | [], m => some (m, [])
  | ch :: rest, m =>
    match closeReassignChild m fuel dead ch with
    | none => none
    | some (m', msgs) =>
      match closeChildrenLoop fuel dead rest m' with
      | none => none
      | some (m'', msgs') => some (m'', msgs ++ msgs')

/-- The unlink step shared by both close handlers: remove the dying node
from the children of its parent, if any, and notify that parent with
`child-left`. -/
def closeUnlink (m : Reg) (id : Nat) (c : Client) : Reg × Sends :=
  match c.parentId with
  | none => (m, [])
  | some pid =>
    match lookup m pid with
    | none => (m, [])
    | some _ =>
      (updateEntry m pid (fun p => { p with children := removeChild p.children id }),
       [(pid, .childLeft id c.nodeLabel)])

/-- The snapshot `Array.from(c.children)` of the dying node, read after
the unlink step (the close handler may have removed the node from its own
children set when it was its own parent). -/
def closeSnapshot (m : Reg) (id : Nat) : List Nat :=
  match lookup m id with
  | none => []
  | some c1 => c1.children

/-- The `ws.on("close")` handler of `src/server.js` (lines 285-316):
unlink from the parent (notifying `child-left`), reassign each child via
a BFS that excludes nothing, then delete the entry. -/
def closeHandler (m : Reg) (fuel : Nat) (id : Nat) : Option (Reg × Sends) :=
  match lookup m id with
  | none => some (m, [])
  | some c =>
    let step1 := closeUnlink m id c
    match closeChildrenLoop fuel id (closeSnapshot step1.1 id) step1.1 with
    | none => none
    | some (m2, msgs) => some (eraseKey m2 id, step1.2 ++ msgs)

/-- The per-child body of the close-handler loop in the part_005 cascade
variant (lines 510-528): identical to the server.js body except that the
BFS runs with `exclude = new Set([dead, ch])`. -/
def p5ReassignChild (m : Reg) (fuel dead ch : Nat) : Option (Reg × Sends) :=
  match lookup m ch with
  | none => some (m, [])
  | some child =>
    let m1 := updateEntry m ch (fun c => { c with parentId := none })
    match findParentNode m1 [dead, ch] fuel with
    | none => none
    | some none => some (m1, [(ch, .reassigned none)])
    | some (some np) =>
      let m2 := updateEntry m1 ch (fun c => { c with parentId := some np })
      let m3 := updateEntry m2 np (fun c => { c with children := addChild c.children ch })
      let bp := chooseBackupParent m3 (some np)
      let m4 := updateEntry m3 ch (fun c => { c with backupParent := bp })
      some (m4, [(np, .listenerJoined ch child.nodeLabel),
                 (ch, .reassigned (some np))])

/-- Fold of `p5ReassignChild` over the snapshot of the dead node's
children. -/
def p5CloseChildrenLoop (fuel dead : Nat) : List Nat → Reg → Option (Reg × Sends)
  | [], m => some (m, [])
  | ch :: rest, m =>
    match p5ReassignChild m fuel dead ch with
    | none => none
    | some (m', msgs) =>
      match p5CloseChildrenLoop fuel dead rest m' with
      | none => none
      | some (m'', msgs') => some (m'', msgs ++ msgs')

/-- The `ws.on("close")` handler of the part_005 cascade variant
(lines 499-530): as in server.js but each reassignment BFS excludes the
dead node and the child being placed. -/
def p5CloseHandler (m : Reg) (fuel : Nat) (id : Nat) : Option (Reg × Sends) :=
  match lookup m id with
  | none => some (m, [])
  | some c =>
    let step1 := closeUnlink m id c
    match p5CloseChildrenLoop fuel id (closeSnapshot step1.1 id) step1.1 with
    | none => none
    | some (m2, msgs) => some (eraseKey m2 id, step1.2 ++ msgs)

/-- One row of the rebalancer's candidate array `{ id, load, limit }`. -/
structure Cand where
  id : Nat
  load : Nat
  limit : Nat
  deriving Repr, DecidableEq

/-- Insert a candidate into an already sorted-by-load list, before the
first strictly heavier entry: folding this over the list from the right
is a stable ascending sort, the behaviour of the JS
`cand.sort((a, b) => a.load - b.load)`. -/
def insertByLoad (x : Cand) : List Cand → List Cand
  | [] => [x]
  | y :: ys => if x.load ≤ y.load then x :: y :: ys else y :: insertByLoad x ys

/-- Stable ascending sort by load. -/
def sortByLoad (l : List Cand) : List Cand :=
  l.foldr insertByLoad []

/-- Increment the cached load of the candidate row with the given id
(`dest.load++`). -/
def bumpLoad (cand : List Cand) (destId : Nat) : List Cand :=
  cand.map (fun x => if x.id = destId then { x with load := x.load + 1 } else x)

/-- The inner loop of `rebalance()` in part_005 (lines 429-441): for each
overflow child, find the first candidate with spare cached load other
than the overloaded node itself, detach the child, link it to the
destination and bump the cached load. -/
def rebalanceOverflow (nId : Nat) : List Nat → Reg → List Cand → Sends → Reg × List Cand × Sends
  | [], m, cand, acc => (m, cand, acc)
  | childId :: rest, m, cand, acc =>
    match cand.find? (fun x => x.id ≠ nId && x.load < x.limit) with
    | none => (m, cand, acc)
    | some dest =>
      let m1 := updateEntry m nId (fun c => { c with children := removeChild c.children childId })
      match lookup m1 childId with
      | none => rebalanceOverflow nId rest m1 cand acc
      | some child =>
        let m2 := updateEntry m1 childId (fun c => { c with parentId := some dest.id })
        let m3 := updateEntry m2 dest.id (fun c => { c with children := addChild c.children childId })
        let cand' := bumpLoad cand dest.id
        rebalanceOverflow nId rest m3 cand'
          (acc ++ [(dest.id, .listenerJoined childId child.nodeLabel),
                   (childId, .reassigned (some dest.id))])

/-- The outer loop of `rebalance()`: walk every registry entry; skip nodes
at or below their limit; relocate the children beyond the limit
(insertion order) of any over-capacity node. -/
def rebalanceOuter : List Nat → Reg → List Cand → Sends → Reg × Sends
  | [], m, _, acc => (m, acc)
  | id :: rest, m, cand, acc =>
    match lookup m id with
    | none => rebalanceOuter rest m cand acc
    | some c =>
      if c.children.length ≤ roleLimit c then rebalanceOuter rest m cand acc
      else
        let overflow := c.children.drop (roleLimit c)
        let r := rebalanceOverflow id overflow m cand acc
        rebalanceOuter rest r.1 r.2.1 r.2.2

/-- `rebalance()` from part_005 (lines 415-443): build the candidate list
(registered nodes only) sorted ascending by load, then relocate overflow
children. -/
def rebalance (m : Reg) : Reg × Sends :=
  let cand := (m.filter (fun p => p.2.role.isSome)).map
    (fun p => Cand.mk p.1 p.2.children.length (roleLimit p.2))
  rebalanceOuter (m.map Prod.fst) m (sortByLoad cand) []

/-- The `metadata` branches of the part_005 tree-relay variant
(lines 102-118): a broadcaster's metadata goes to every listener, a
listener's metadata is forwarded to its direct children. -/
def p5TreeMetadata (m : Reg) (senderId : Nat) (payload : String) : Option (Reg × Sends) :=
  match lookup m senderId with
  | none => none
  | some entry =>
    if entry.role = some "broadcaster" then
      some (m, (m.filter (fun p => p.2.role = some "listener")).map
        (fun p => (p.1, OutMsg.metadata payload)))
    else if entry.role = some "listener" then
      some (m, entry.children.filterMap (fun ch =>
        (lookup m ch).map (fun _ => (ch, OutMsg.metadata payload))))
    else some (m, [])

/-- A fresh participant record as built on `wss.on("connection")`. -/
def freshClient (label : String) (now : Nat) : Client :=
  { role := none, parentId := none, children := [], nodeLabel := label,
    lastSeen := now, backupParent := none, customId := none }

/-- The dispatcher inputs: an inbound message, a transport close (server.js
or part_005 variant), a rebalance tick, or a new connection. -/
inductive DStep where
  | dmsg (sender : Nat) (msg : InMsg)
  | dclose (id : Nat)
  | dp5close (id : Nat)
  | drebalance
  | dconnect (id : Nat) (label : String)
  deriving Repr, DecidableEq

/-- One serialized dispatcher step.  `none` means an inner BFS ran out of
fuel. -/
def dispatcherStep (s : DStep) (fuel now : Nat) (m : Reg) : Option (Reg × Sends) :=
  match s with
  | .dmsg sender msg => handleMessage m fuel now sender msg
  | .dclose id => closeHandler m fuel id
  | .dp5close id => p5CloseHandler m fuel id
  | .drebalance => some (rebalance m)
  | .dconnect id label => some (m ++ [(id, freshClient label now)], [])

/-- The capacity invariant: every registry entry has at most its
role-dependent limit of children. -/
def CapOK (m : Reg) : Prop :=
  ∀ p ∈ m, (Prod.snd p).children.length ≤ roleLimit (Prod.snd p)

instance : DecidablePred CapOK := fun m =>
  inferInstanceAs (Decidable (∀ p ∈ m, (Prod.snd p).children.length ≤ roleLimit (Prod.snd p)))

/-- Number of registry entries whose role is `"broadcaster"`. -/
def countBroadcasters (m : Reg) : Nat :=
  (m.filter (fun p => p.2.role = some "broadcaster")).length

/-- Specification-side breadth-first visit order: the ids a BFS from the
given queue visits, in order, skipping dead ids and enqueueing every
visited node's children (no capacity short-circuit).  `none` when the
fuel runs out before the traversal completes. -/
def bfsVisit (m : Reg) : Nat → List Nat → Option (List Nat)
  | 0, _ => none
  | _ + 1, [] => some []
  | fuel + 1, id :: q =>
    match lookup m id with
    | none => bfsVisit m fuel q
    | some c => (bfsVisit m fuel (q ++ c.children)).map (fun l => id :: l)

/-- Reachability from the root along the children relation. -/
inductive ReachC (m : Reg) (root : Nat) : Nat → Prop
  | root : ReachC m root root
  | step : ∀ x c y, ReachC m root x → lookup m x = some c → y ∈ c.children → ReachC m root y

/-- The longest children list of any entry, used to bound BFS fan-out. -/
def maxChildLen (m : Reg) : Nat :=
  m.foldr (fun p acc => max p.2.children.length acc) 0

/-- Specification-side placement (written from the words of the spec):
if there is no broadcaster the placement yields no parent, otherwise it
yields the first node of the breadth-first visit order from the root
whose child count is below its capacity.  To be compared with the
placement the code performs via `bfsFindParent`. -/
def placeSpec (m : Reg) (fuel : Nat) : Option (Option Nat) :=
  match findRootBroadcaster m with
  | none => some none
  | some r => (bfsVisit m fuel [r]).map (fun l => l.find? (hasCapacityAt m))

/-- The id-to-role projection of the registry, in insertion order; used
to state that a step changes no role. -/
def roleView (m : Reg) : List (Nat × Option String) :=
  m.map (fun p => (p.1, p.2.role))

/- ------------------------------------------------------------------ -/
/- Concrete registry states used by the counterexamples and witnesses  -/
/- ------------------------------------------------------------------ -/

/-- A registered broadcaster record with the given children. -/
def bClient (ch : List Nat) : Client :=
  { role := some "broadcaster", parentId := none, children := ch,
    nodeLabel := "fmB", lastSeen := 0, backupParent := none, customId := none }

/-- A registered listener record with the given parent and children. -/
def lClient (p : Option Nat) (ch : List Nat) (lbl : String) : Client :=
  { role := some "listener", parentId := p, children := ch,
    nodeLabel := lbl, lastSeen := 0, backupParent := none, customId := none }

/-- Broadcaster 0 with listeners 1 and 2 attached — the state reached by
registering a broadcaster and two listeners. -/
def mCycle : Reg :=
  [(0, bClient [1, 2]), (1, lClient (some 0) [] "fmL1"), (2, lClient (some 0) [] "fmL2")]

/-- Broadcaster 0 with the single listener 1 attached. -/
def mDead : Reg := [(0, bClient [1]), (1, lClient (some 0) [] "fmL1")]

/-- Broadcaster 0 together with a freshly connected, unregistered
participant 1. -/
def mTwoB : Reg := [(0, bClient []), (1, freshClient "fmN" 0)]

/-- A lone registered broadcaster. -/
def mSoloB : Reg := [(0, bClient [])]

/-- A chain: broadcaster 0, listener 1 under it, listener 2 under 1. -/
def mTree : Reg :=
  [(0, bClient [1]), (1, lClient (some 0) [2] "fmL1"), (2, lClient (some 1) [] "fmL2")]

/-- The result of listener 1 registering in `mTwoB`, used to witness the
capacity-preservation theorem. -/
def regListenerRes : Reg × Sends :=
  (dispatcherStep (.dmsg 1 (.register (some "listener") none)) 4 0 mTwoB).getD ([], [])

/-- The result of the part_005 close-path reassignment of child 2 after
node 1 of `mTree` dies. -/
def c5Res : Reg × Sends := (p5ReassignChild mTree 9 1 2).getD ([], [])

/-- The result of listener 1 registering in `mTwoB` through the message
handler, used to witness the placement-refinement theorem. -/
def c4Res : Reg × Sends :=
  (handleMessage mTwoB 9 0 1 (.register (some "listener") none)).getD ([], [])

/-- The result of participant 1 of `mTwoB` registering as a second
broadcaster. -/
def c3Res : Reg × Sends :=
  (handleMessage mTwoB 9 0 1 (.register (some "broadcaster") none)).getD ([], [])

/-- The result of the lone broadcaster of `mSoloB` re-registering as a
listener. -/
def c6Res : Reg × Sends :=
  (handleMessage mSoloB 9 0 0 (.register (some "listener") none)).getD ([], [])

/- ------------------------------------------------------------------ -/
/- Registry lemmas                                                     -/
/- ------------------------------------------------------------------ -/

theorem lookup_mem {m : Reg} {k : Nat} {c : Client} (h : lookup m k = some c) :
    (k, c) ∈ m := by
  induction m with
  | nil => simp [lookup] at h
  | cons p rest ih =>
    obtain ⟨k', c'⟩ := p
    by_cases hk : k' = k
    · subst hk
      simp [lookup] at h
      subst h
      exact List.mem_cons_self _ _
    · simp [lookup, hk] at h
      exact List.mem_cons_of_mem _ (ih h)

theorem lookup_updateEntry_self (m : Reg) (k : Nat) (f : Client → Client) :
    lookup (updateEntry m k f) k = (lookup m k).map f := by
  induction m with
  | nil => simp [lookup, updateEntry]
  | cons p rest ih =>
    obtain ⟨k', c'⟩ := p
    by_cases hk : k' = k
    · subst hk
      simp [lookup, updateEntry]
    · simp [lookup, updateEntry, hk, ih]

theorem lookup_updateEntry_ne (m : Reg) (k k' : Nat) (f : Client → Client)
    (h : k' ≠ k) : lookup (updateEntry m k f) k' = lookup m k' := by
  induction m with
  | nil => simp [lookup, updateEntry]
  | cons p rest ih =>
    obtain ⟨k0, c0⟩ := p
    by_cases hk : k0 = k
    · subst hk
      have : k0 ≠ k' := fun hc => h hc.symm
      simp [lookup, updateEntry, this]
    · by_cases hk' : k0 = k'
      · subst hk'
        simp [lookup, updateEntry, hk]
      · simp [lookup, updateEntry, hk, hk', ih]

theorem mem_updateEntry {m : Reg} {k : Nat} {f : Client → Client} {p : Nat × Client}
    (h : p ∈ updateEntry m k f) :
    p ∈ m ∨ ∃ c, lookup m k = some c ∧ p = (k, f c) := by
  induction m with
  | nil => simp [updateEntry] at h
  | cons q rest ih =>
    obtain ⟨k', c'⟩ := q
    by_cases hk : k' = k
    · subst hk
      simp only [updateEntry, if_pos rfl] at h
      rcases List.mem_cons.mp h with h1 | h1
      · exact Or.inr ⟨c', by simp [lookup], h1⟩
      · exact Or.inl (List.mem_cons_of_mem _ h1)
    · simp only [updateEntry, if_neg hk] at h
      rcases List.mem_cons.mp h with h1 | h1
      · exact Or.inl (h1 ▸ List.mem_cons_self _ _)
      · rcases ih h1 with h2 | ⟨c, hc, hp⟩
        · exact Or.inl (List.mem_cons_of_mem _ h2)
        · exact Or.inr ⟨c, by simp [lookup, hk, hc], hp⟩

theorem mem_eraseKey {m : Reg} {k : Nat} {p : Nat × Client} (h : p ∈ eraseKey m k) :
    p ∈ m := (List.mem_filter.mp h).1

theorem addChild_length (l : List Nat) (x : Nat) :
    (addChild l x).length ≤ l.length + 1 := by
  unfold addChild
  split
  · exact Nat.le_succ _
  · simp

theorem removeChild_length (l : List Nat) (x : Nat) :
    (removeChild l x).length ≤ l.length :=
  List.length_filter_le _ _

theorem roleLimit_two (c : Client) : roleLimit c = 2 := by
  unfold roleLimit ROOT_CHILD_LIMIT MAX_CHILDREN_PER_NODE
  split <;> rfl

/- ------------------------------------------------------------------ -/
/- Capacity-invariant lemmas                                           -/
/- ------------------------------------------------------------------ -/

theorem capOK_iff (m : Reg) : CapOK m ↔ ∀ p ∈ m, (Prod.snd p).children.length ≤ 2 := by
  unfold CapOK
  constructor
  · intro h p hp
    have := h p hp
    rwa [roleLimit_two] at this
  · intro h p hp
    rw [roleLimit_two]
    exact h p hp

/-- Updating an entry with a function that does not grow its children list
preserves the capacity invariant. -/
theorem capOK_update_mono {m : Reg} {k : Nat} {f : Client → Client}
    (hf : ∀ c, ((f c).children.length ≤ c.children.length))
    (h : CapOK m) : CapOK (updateEntry m k f) := by
  rw [capOK_iff] at h ⊢
  intro p hp
  rcases mem_updateEntry hp with h1 | ⟨c, hc, hp'⟩
  · exact h p h1
  · subst hp'
    exact le_trans (hf c) (h _ (lookup_mem hc))

/-- Adding one child to a node known (by the BFS guard) to be strictly
below its limit preserves the capacity invariant. -/
theorem capOK_update_addChild {m : Reg} {k : Nat} (ch : Nat) {c : Client}
    (hc : lookup m k = some c) (hcap : c.children.length < roleLimit c)
    (h : CapOK m) : CapOK (updateEntry m k (fun x => { x with children := addChild x.children ch })) := by
  rw [capOK_iff] at h ⊢
  intro p hp
  rcases mem_updateEntry hp with h1 | ⟨c', hc', hp'⟩
  · exact h p h1
  · subst hp'
    have hcc : c' = c := by rw [hc] at hc'; exact (Option.some_injective _ hc').symm
    subst hcc
    rw [roleLimit_two] at hcap
    calc (addChild c'.children ch).length ≤ c'.children.length + 1 := addChild_length _ _
      _ ≤ 2 := Nat.succ_le_of_lt hcap

theorem capOK_eraseKey {m : Reg} {k : Nat} (h : CapOK m) : CapOK (eraseKey m k) :=
  fun p hp => h p (mem_eraseKey hp)

/- ------------------------------------------------------------------ -/
/- BFS lemmas                                                          -/
/- ------------------------------------------------------------------ -/

/-- A node returned by the server.js BFS loop exists and has spare
capacity. -/
theorem bfsLoop_found {m : Reg} :
    ∀ fuel q p, bfsLoop m fuel q = some (some p) →
      ∃ c, lookup m p = some c ∧ c.children.length < roleLimit c := by
  intro fuel
  induction fuel with
  | zero => intro q p h; simp [bfsLoop] at h
  | succ n ih =>
    intro q p h
    match q with
    | [] => simp [bfsLoop] at h
    | id :: rest =>
      rw [bfsLoop] at h
      cases hl : lookup m id with
      | none => rw [hl] at h; exact ih rest p h
      | some c =>
        simp only [hl] at h
        by_cases hcap : c.children.length < roleLimit c
        · rw [if_pos hcap] at h
          have hp : id = p := by
            have := Option.some_injective _ h
            exact Option.some_injective _ this
          subst hp
          exact ⟨c, hl, hcap⟩
        · rw [if_neg hcap] at h
          exact ih _ p h

theorem bfsFindParent_found {m : Reg} {fuel : Nat} {p : Nat}
    (h : bfsFindParent m fuel = some (some p)) :
    ∃ c, lookup m p = some c ∧ c.children.length < roleLimit c := by
  unfold bfsFindParent at h
  cases hr : findRootBroadcaster m with
  | none => rw [hr] at h; simp at h
  | some root => rw [hr] at h; exact bfsLoop_found fuel [root] p h

/-- A node returned by the part_005 BFS loop exists, has spare capacity,
and is not in the exclusion set. -/
theorem findParentNodeLoop_found {m : Reg} {exclude : List Nat} :
    ∀ fuel q p, findParentNodeLoop m exclude fuel q = some (some p) →
      (∃ c, lookup m p = some c ∧ c.children.length < roleLimit c) ∧ p ∉ exclude := by
  intro fuel
  induction fuel with
  | zero => intro q p h; simp [findParentNodeLoop] at h
  | succ n ih =>
    intro q p h
    match q with
    | [] => simp [findParentNodeLoop] at h
    | id :: rest =>
      rw [findParentNodeLoop] at h
      by_cases hex : exclude.contains id
      · rw [if_pos hex] at h
        exact ih rest p h
      · rw [if_neg hex] at h
        cases hl : lookup m id with
        | none => rw [hl] at h; exact ih rest p h
        | some c =>
          simp only [hl] at h
          by_cases hcap : c.children.length < roleLimit c
          · rw [if_pos hcap] at h
            have hp : id = p := by
              have := Option.some_injective _ h
              exact Option.some_injective _ this
            subst hp
            exact ⟨⟨c, hl, hcap⟩, by simpa using hex⟩
          · rw [if_neg hcap] at h
            exact ih _ p h

theorem findParentNode_found {m : Reg} {exclude : List Nat} {fuel : Nat} {p : Nat}
    (h : findParentNode m exclude fuel = some (some p)) :
    (∃ c, lookup m p = some c ∧ c.children.length < roleLimit c) ∧ p ∉ exclude := by
  unfold findParentNode at h
  cases hr : findRootBroadcaster m with
  | none => rw [hr] at h; simp at h
  | some root => rw [hr] at h; exact findParentNodeLoop_found fuel [root] p h

/- ------------------------------------------------------------------ -/
/- Update-transfer lemmas                                              -/
/- ------------------------------------------------------------------ -/

/-- Any projection preserved by the update function is unchanged at every
key. -/
theorem lookup_update_map {α : Type} (g : Client → α) (m : Reg) (j : Nat)
    (f : Client → Client) (hf : ∀ c, g (f c) = g c) (k : Nat) :
    (lookup (updateEntry m j f) k).map g = (lookup m k).map g := by
  by_cases hk : k = j
  · subst hk
    rw [lookup_updateEntry_self]
    cases lookup m k <;> simp [hf]
  · rw [lookup_updateEntry_ne _ _ _ _ hk]

/-- Spare capacity at a node survives any update that does not touch
children lists. -/
theorem capAt_of_update (m : Reg) (j np : Nat) (f : Client → Client)
    (hf : ∀ c, (f c).children = c.children) {c : Client}
    (hc : lookup m np = some c) (hlen : c.children.length < roleLimit c) :
    ∃ c', lookup (updateEntry m j f) np = some c' ∧ c'.children.length < roleLimit c' := by
  have hmap := @lookup_update_map (List Nat) Client.children m j f hf np
  rw [hc] at hmap
  cases hl' : lookup (updateEntry m j f) np with
  | none => rw [hl'] at hmap; simp at hmap
  | some c' =>
    rw [hl'] at hmap
    simp only [Option.map_some'] at hmap
    have hch : c'.children = c.children := Option.some_injective _ hmap
    refine ⟨c', rfl, ?_⟩
    rw [roleLimit_two, hch]
    rw [roleLimit_two] at hlen
    exact hlen

/- ------------------------------------------------------------------ -/
/- Capacity preservation through each handler                          -/
/- ------------------------------------------------------------------ -/

theorem capOK_reassignChild {m : Reg} {fuel childId : Nat} {m' : Reg} {msgs : Sends}
    (h : reassignChild m fuel childId = some (m', msgs)) (hcap : CapOK m) : CapOK m' := by
  unfold reassignChild at h
  cases hl : lookup m childId with
  | none =>
    rw [hl] at h
    simp only [Option.some_inj, Prod.mk.injEq] at h
    exact h.1 ▸ hcap
  | some child =>
    simp only [hl] at h
    cases hb : bfsFindParent m fuel with
    | none => rw [hb] at h; simp at h
    | some r =>
      cases r with
      | none =>
        rw [hb] at h
        simp only [Option.some_inj, Prod.mk.injEq] at h
        exact h.1 ▸ capOK_update_mono (fun c => le_refl _) hcap
      | some np =>
        rw [hb] at h
        simp only [Option.some_inj, Prod.mk.injEq] at h
        obtain ⟨c, hcnp, hcapnp⟩ := bfsFindParent_found hb
        obtain ⟨c1, hc1, hcap1⟩ :=
          capAt_of_update m childId np (fun c => { c with parentId := some np })
            (fun c => rfl) hcnp hcapnp
        have hm1 : CapOK (updateEntry m childId (fun c => { c with parentId := some np })) :=
          capOK_update_mono (fun c => le_refl _) hcap
        have hm2 := capOK_update_addChild childId hc1 hcap1 hm1
        exact h.1 ▸ capOK_update_mono (fun c => le_refl _) hm2

theorem capOK_attachRootless {fuel : Nat} :
    ∀ ids m m' msgs, attachRootless fuel ids m = some (m', msgs) → CapOK m → CapOK m' := by
  intro ids
  induction ids with
  | nil =>
    intro m m' msgs h hcap
    unfold attachRootless at h
    simp only [Option.some_inj, Prod.mk.injEq] at h
    exact h.1 ▸ hcap
  | cons cid rest ih =>
    intro m m' msgs h hcap
    unfold attachRootless at h
    cases hl : lookup m cid with
    | none =>
      rw [hl] at h
      exact ih m m' msgs h hcap
    | some c =>
      simp only [hl] at h
      by_cases hcond : c.role = some "listener" ∧ c.parentId = none
      · rw [if_pos hcond] at h
        cases hr : reassignChild m fuel cid with
        | none => rw [hr] at h; simp at h
        | some pr =>
          obtain ⟨m1, msgs1⟩ := pr
          simp only [hr] at h
          cases ha : attachRootless fuel rest m1 with
          | none => rw [ha] at h; simp at h
          | some pr2 =>
            obtain ⟨m2, msgs2⟩ := pr2
            rw [ha] at h
            simp only [Option.some_inj, Prod.mk.injEq] at h
            exact h.1 ▸ ih m1 m2 msgs2 ha (capOK_reassignChild hr hcap)
      · rw [if_neg hcond] at h
        exact ih m m' msgs h hcap

theorem capOK_applyRegisterRole {m : Reg} {sender : Nat} {role customId : Option String}
    (hcap : CapOK m) : CapOK (applyRegisterRole m sender role customId) :=
  capOK_update_mono (fun c => le_refl _) hcap

theorem capOK_registerHandler {m : Reg} {fuel sender : Nat} {role customId : Option String}
    {m' : Reg} {msgs : Sends}
    (h : registerHandler m fuel sender role customId = some (m', msgs)) (hcap : CapOK m) :
    CapOK m' := by
  unfold registerHandler at h
  cases hl : lookup m sender with
  | none => rw [hl] at h; simp at h
  | some entry0 =>
    simp only [hl] at h
    by_cases hbr : jsOr role "listener" = "broadcaster"
    · rw [if_pos hbr] at h
      cases ha : attachRootless fuel ((applyRegisterRole m sender role customId).map Prod.fst)
          (applyRegisterRole m sender role customId) with
      | none => rw [ha] at h; simp at h
      | some pr =>
        obtain ⟨m2, msgs2⟩ := pr
        rw [ha] at h
        simp only [Option.some_inj, Prod.mk.injEq] at h
        exact h.1 ▸ capOK_attachRootless _ _ m2 msgs2 ha (capOK_applyRegisterRole hcap)
    · rw [if_neg hbr] at h
      cases hb : bfsFindParent (applyRegisterRole m sender role customId) fuel with
      | none => rw [hb] at h; simp at h
      | some r =>
        cases r with
        | none =>
          rw [hb] at h
          simp only [Option.some_inj, Prod.mk.injEq] at h
          exact h.1 ▸ capOK_update_mono (fun c => le_refl _) (capOK_applyRegisterRole hcap)
        | some pid =>
          rw [hb] at h
          simp only [Option.some_inj, Prod.mk.injEq] at h
          obtain ⟨c, hcp, hcapp⟩ := bfsFindParent_found hb
          obtain ⟨c1, hc1, hcap1⟩ :=
            capAt_of_update (applyRegisterRole m sender role customId) sender pid
              (fun c => { c with parentId := some pid }) (fun c => rfl) hcp hcapp
          have hm2 := capOK_update_addChild sender hc1 hcap1
            (capOK_update_mono (fun c => le_refl _) (capOK_applyRegisterRole hcap))
          exact h.1 ▸ capOK_update_mono (fun c => le_refl _) hm2

theorem capOK_closeReassignChild {m : Reg} {fuel dead ch : Nat} {m' : Reg} {msgs : Sends}
    (h : closeReassignChild m fuel dead ch = some (m', msgs)) (hcap : CapOK m) : CapOK m' := by
  unfold closeReassignChild at h
  cases hl : lookup m ch with
  | none =>
    rw [hl] at h
    simp only [Option.some_inj, Prod.mk.injEq] at h
    exact h.1 ▸ hcap
  | some child =>
    simp only [hl] at h
    have hm1 : CapOK (updateEntry m ch (fun c => { c with parentId := none })) :=
      capOK_update_mono (fun c => le_refl _) hcap
    cases hb : bfsFindParent (updateEntry m ch (fun c => { c with parentId := none })) fuel with
    | none => rw [hb] at h; simp at h
    | some r =>
      cases r with
      | none =>
        rw [hb] at h
        simp only [Option.some_inj, Prod.mk.injEq] at h
        exact h.1 ▸ hm1
      | some np =>
        rw [hb] at h
        simp only [Option.some_inj, Prod.mk.injEq] at h
        obtain ⟨c, hcnp, hcapnp⟩ := bfsFindParent_found hb
        obtain ⟨c1, hc1, hcap1⟩ :=
          capAt_of_update (updateEntry m ch (fun c => { c with parentId := none })) ch np
            (fun c => { c with parentId := some np }) (fun c => rfl) hcnp hcapnp
        have hm2 := capOK_update_addChild ch hc1 hcap1
          (capOK_update_mono (fun c => le_refl _) hm1)
        exact h.1 ▸ capOK_update_mono (fun c => le_refl _) hm2

theorem capOK_closeChildrenLoop {fuel dead : Nat} :
    ∀ chs m m' msgs, closeChildrenLoop fuel dead chs m = some (m', msgs) → CapOK m → CapOK m' := by
  intro chs
  induction chs with
  | nil =>
    intro m m' msgs h hcap
    unfold closeChildrenLoop at h
    simp only [Option.some_inj, Prod.mk.injEq] at h
    exact h.1 ▸ hcap
  | cons ch rest ih =>
    intro m m' msgs h hcap
    unfold closeChildrenLoop at h
    cases hr : closeReassignChild m fuel dead ch with
    | none => rw [hr] at h; simp at h
    | some pr =>
      obtain ⟨m1, msgs1⟩ := pr
      simp only [hr] at h
      cases ha : closeChildrenLoop fuel dead rest m1 with
      | none => rw [ha] at h; simp at h
      | some pr2 =>
        obtain ⟨m2, msgs2⟩ := pr2
        rw [ha] at h
        simp only [Option.some_inj, Prod.mk.injEq] at h
        exact h.1 ▸ ih m1 m2 msgs2 ha (capOK_closeReassignChild hr hcap)

theorem capOK_closeUnlink {m : Reg} {id : Nat} {c : Client} (hcap : CapOK m) :
    CapOK (closeUnlink m id c).1 := by
  unfold closeUnlink
  cases hp : c.parentId with
  | none => exact hcap
  | some pid =>
    simp only
    cases hl : lookup m pid with
    | none => exact hcap
    | some q =>
      simp only
      exact capOK_update_mono (fun p => removeChild_length p.children id) hcap

theorem capOK_closeHandler {m : Reg} {fuel id : Nat} {m' : Reg} {msgs : Sends}
    (h : closeHandler m fuel id = some (m', msgs)) (hcap : CapOK m) : CapOK m' := by
  unfold closeHandler at h
  cases hl : lookup m id with
  | none =>
    rw [hl] at h
    simp only [Option.some_inj, Prod.mk.injEq] at h
    exact h.1 ▸ hcap
  | some c =>
    simp only [hl] at h
    cases hloop : closeChildrenLoop fuel id (closeSnapshot (closeUnlink m id c).1 id)
        (closeUnlink m id c).1 with
    | none => rw [hloop] at h; simp at h
    | some pr =>
      obtain ⟨m2, msgs2⟩ := pr
      rw [hloop] at h
      simp only [Option.some_inj, Prod.mk.injEq] at h
      exact h.1 ▸ capOK_eraseKey (capOK_closeChildrenLoop _ _ m2 msgs2 hloop (capOK_closeUnlink hcap))

theorem capOK_p5ReassignChild {m : Reg} {fuel dead ch : Nat} {m' : Reg} {msgs : Sends}
    (h : p5ReassignChild m fuel dead ch = some (m', msgs)) (hcap : CapOK m) : CapOK m' := by
  unfold p5ReassignChild at h
  cases hl : lookup m ch with
  | none =>
    rw [hl] at h
    simp only [Option.some_inj, Prod.mk.injEq] at h
    exact h.1 ▸ hcap
  | some child =>
    simp only [hl] at h
    have hm1 : CapOK (updateEntry m ch (fun c => { c with parentId := none })) :=
      capOK_update_mono (fun c => le_refl _) hcap
    cases hb : findParentNode (updateEntry m ch (fun c => { c with parentId := none }))
        [dead, ch] fuel with
    | none => rw [hb] at h; simp at h
    | some r =>
      cases r with
      | none =>
        rw [hb] at h
        simp only [Option.some_inj, Prod.mk.injEq] at h
        exact h.1 ▸ hm1
      | some np =>
        rw [hb] at h
        simp only [Option.some_inj, Prod.mk.injEq] at h
        obtain ⟨⟨c, hcnp, hcapnp⟩, hex⟩ := findParentNode_found hb
        obtain ⟨c1, hc1, hcap1⟩ :=
          capAt_of_update (updateEntry m ch (fun c => { c with parentId := none })) ch np
            (fun c => { c with parentId := some np }) (fun c => rfl) hcnp hcapnp
        have hm2 := capOK_update_addChild ch hc1 hcap1
          (capOK_update_mono (fun c => le_refl _) hm1)
        exact h.1 ▸ capOK_update_mono (fun c => le_refl _) hm2

theorem capOK_p5CloseChildrenLoop {fuel dead : Nat} :
    ∀ chs m m' msgs, p5CloseChildrenLoop fuel dead chs m = some (m', msgs) → CapOK m → CapOK m' := by
  intro chs
  induction chs with
  | nil =>
    intro m m' msgs h hcap
    unfold p5CloseChildrenLoop at h
    simp only [Option.some_inj, Prod.mk.injEq] at h
    exact h.1 ▸ hcap
  | cons ch rest ih =>
    intro m m' msgs h hcap
    unfold p5CloseChildrenLoop at h
    cases hr : p5ReassignChild m fuel dead ch with
    | none => rw [hr] at h; simp at h
    | some pr =>
      obtain ⟨m1, msgs1⟩ := pr
      simp only [hr] at h
      cases ha : p5CloseChildrenLoop fuel dead rest m1 with
      | none => rw [ha] at h; simp at h
      | some pr2 =>
        obtain ⟨m2, msgs2⟩ := pr2
        rw [ha] at h
        simp only [Option.some_inj, Prod.mk.injEq] at h
        exact h.1 ▸ ih m1 m2 msgs2 ha (capOK_p5ReassignChild hr hcap)

theorem capOK_p5CloseHandler {m : Reg} {fuel id : Nat} {m' : Reg} {msgs : Sends}
    (h : p5CloseHandler m fuel id = some (m', msgs)) (hcap : CapOK m) : CapOK m' := by
  unfold p5CloseHandler at h
  cases hl : lookup m id with
  | none =>
    rw [hl] at h
    simp only [Option.some_inj, Prod.mk.injEq] at h
    exact h.1 ▸ hcap
  | some c =>
    simp only [hl] at h
    cases hloop : p5CloseChildrenLoop fuel id (closeSnapshot (closeUnlink m id c).1 id)
        (closeUnlink m id c).1 with
    | none => rw [hloop] at h; simp at h
    | some pr =>
      obtain ⟨m2, msgs2⟩ := pr
      rw [hloop] at h
      simp only [Option.some_inj, Prod.mk.injEq] at h
      exact h.1 ▸ capOK_eraseKey (capOK_p5CloseChildrenLoop _ _ m2 msgs2 hloop (capOK_closeUnlink hcap))

/-- Under the capacity invariant the rebalancer finds no over-capacity
node and leaves the state untouched. -/
theorem rebalanceOuter_skip :
    ∀ ids m cand acc, (∀ k c, lookup m k = some c → c.children.length ≤ roleLimit c) →
      rebalanceOuter ids m cand acc = (m, acc) := by
  intro ids
  induction ids with
  | nil => intro m cand acc hok; rfl
  | cons id rest ih =>
    intro m cand acc hok
    unfold rebalanceOuter
    cases hl : lookup m id with
    | none => exact ih m cand acc hok
    | some c =>
      simp only
      rw [if_pos (hok id c hl)]
      exact ih m cand acc hok

theorem rebalance_skip {m : Reg} (hcap : CapOK m) : rebalance m = (m, []) := by
  unfold rebalance
  exact rebalanceOuter_skip _ m _ [] (fun k c hl => hcap (k, c) (lookup_mem hl))

/- ------------------------------------------------------------------ -/
/- Frame lemmas for the router branches                                -/
/- ------------------------------------------------------------------ -/

theorem heartbeat_state {m : Reg} {fuel now sender : Nat} {m' : Reg} {msgs : Sends}
    (h : handleMessage m fuel now sender .heartbeat = some (m', msgs)) :
    m' = updateEntry m sender (fun c => { c with lastSeen := now }) ∧ msgs = [] := by
  unfold handleMessage at h
  cases hl : lookup m sender with
  | none => rw [hl] at h; simp at h
  | some c =>
    simp only [hl] at h
    simp only [Option.some_inj, Prod.mk.injEq] at h
    exact ⟨h.1.symm, h.2.symm⟩

theorem handshake_state {m : Reg} {fuel now sender : Nat} {ty : String}
    {target : Option Nat} {payload : String} {m' : Reg} {msgs : Sends}
    (h : handleMessage m fuel now sender (.handshake ty target payload) = some (m', msgs)) :
    m' = m := by
  simp only [handleMessage] at h
  by_cases hc : (ty = "offer" ∨ ty = "answer" ∨ ty = "candidate") ∧ target.isSome
  · rw [if_pos hc] at h
    cases target with
    | none => simp only [Option.some_inj, Prod.mk.injEq] at h; exact h.1.symm
    | some t =>
      simp only at h
      cases hl : lookup m t with
      | none =>
        rw [hl] at h
        simp only [Option.some_inj, Prod.mk.injEq] at h
        exact h.1.symm
      | some c =>
        rw [hl] at h
        simp only [Option.some_inj, Prod.mk.injEq] at h
        exact h.1.symm
  · rw [if_neg hc] at h
    simp only [Option.some_inj, Prod.mk.injEq] at h
    exact h.1.symm

theorem cmd_state {m : Reg} {fuel now sender : Nat} {payload : String} {m' : Reg} {msgs : Sends}
    (h : handleMessage m fuel now sender (.cmd payload) = some (m', msgs)) :
    m' = m := by
  unfold handleMessage at h
  cases hl : lookup m sender with
  | none => rw [hl] at h; simp at h
  | some entry =>
    simp only [hl] at h
    by_cases hr : entry.role = some "broadcaster"
    · rw [if_pos hr] at h
      simp only [Option.some_inj, Prod.mk.injEq] at h
      exact h.1.symm
    · rw [if_neg hr] at h
      simp only [Option.some_inj, Prod.mk.injEq] at h
      exact h.1.symm

theorem metadata_state {m : Reg} {fuel now sender : Nat} {payload : String} {m' : Reg} {msgs : Sends}
    (h : handleMessage m fuel now sender (.metadata payload) = some (m', msgs)) :
    m' = m := by
  unfold handleMessage at h
  cases hl : lookup m sender with
  | none => rw [hl] at h; simp at h
  | some entry =>
    simp only [hl] at h
    by_cases hr : entry.role = some "broadcaster"
    · rw [if_pos hr] at h
      simp only [Option.some_inj, Prod.mk.injEq] at h
      exact h.1.symm
    · rw [if_neg hr] at h
      simp only [Option.some_inj, Prod.mk.injEq] at h
      exact h.1.symm

theorem roomMessage_state {m : Reg} {fuel now sender : Nat} {payload : String} {m' : Reg} {msgs : Sends}
    (h : handleMessage m fuel now sender (.roomMessage payload) = some (m', msgs)) :
    m' = m := by
  unfold handleMessage at h
  cases hl : lookup m sender with
  | none =>
    rw [hl] at h
    simp only [Option.some_inj, Prod.mk.injEq] at h
    exact h.1.symm
  | some e =>
    simp only [hl] at h
    simp only [Option.some_inj, Prod.mk.injEq] at h
    exact h.1.symm

theorem other_state {m : Reg} {fuel now sender : Nat} {m' : Reg} {msgs : Sends}
    (h : handleMessage m fuel now sender .other = some (m', msgs)) :
    m' = m := by
  unfold handleMessage at h
  simp only [Option.some_inj, Prod.mk.injEq] at h
  exact h.1.symm

theorem capOK_append {m : Reg} {p : Nat × Client} (hcap : CapOK m)
    (hp : (Prod.snd p).children.length ≤ roleLimit (Prod.snd p)) : CapOK (m ++ [p]) := by
  intro q hq
  rcases List.mem_append.mp hq with hq | hq
  · exact hcap q hq
  · rw [List.mem_singleton.mp hq]
    exact hp

/- ------------------------------------------------------------------ -/
/- Claim C2                                                            -/
/- ------------------------------------------------------------------ -/

/-- C2: after every dispatcher step that completes (register placement,
close-path reassignment in either variant, a full rebalance pass, and
also heartbeats, relays, fan-outs and fresh connections), every
participant `n` satisfies `children(n).length ≤ roleLimit n`, where the
limit is 2 for the broadcaster and 2 for every other node: the capacity
invariant is preserved by `dispatcherStep`. -/
theorem c2_capacity_invariant_preserved (s : DStep) (fuel now : Nat) (m m' : Reg)
    (msgs : Sends) (hcap : CapOK m) (h : dispatcherStep s fuel now m = some (m', msgs)) :
    CapOK m' := by
  cases s with
  | dmsg sender msg =>
    simp only [dispatcherStep] at h
    cases msg with
    | heartbeat =>
      obtain ⟨hm, -⟩ := heartbeat_state h
      exact hm ▸ capOK_update_mono (fun c => le_refl _) hcap
    | register role cust =>
      simp only [handleMessage] at h
      exact capOK_registerHandler h hcap
    | handshake ty t pl => exact (handshake_state h) ▸ hcap
    | cmd pl => exact (cmd_state h) ▸ hcap
    | metadata pl => exact (metadata_state h) ▸ hcap
    | roomMessage pl => exact (roomMessage_state h) ▸ hcap
    | other => exact (other_state h) ▸ hcap
  | dclose id =>
    simp only [dispatcherStep] at h
    exact capOK_closeHandler h hcap
  | dp5close id =>
    simp only [dispatcherStep] at h
    exact capOK_p5CloseHandler h hcap
  | drebalance =>
    simp only [dispatcherStep] at h
    rw [rebalance_skip hcap] at h
    simp only [Option.some_inj, Prod.mk.injEq] at h
    exact h.1 ▸ hcap
  | dconnect id label =>
    simp only [dispatcherStep, Option.some_inj, Prod.mk.injEq] at h
    refine h.1 ▸ capOK_append hcap ?_
    simp [freshClient, roleLimit_two]

/-- Witness for C2: the capacity invariant holds of `mTwoB` and of the
state after listener 1 registers there. -/
theorem c2_capacity_witness : CapOK mTwoB ∧ CapOK regListenerRes.1 :=
  ⟨by decide,
   c2_capacity_invariant_preserved (.dmsg 1 (.register (some "listener") none)) 4 0
     mTwoB regListenerRes.1 regListenerRes.2 (by decide) (by decide)⟩

/- ------------------------------------------------------------------ -/
/- Claim C7                                                            -/
/- ------------------------------------------------------------------ -/

/-- C7: an inbound `offer`, `answer` or `candidate` frame carrying a
target is delivered only to the participant whose id equals the target,
rewritten to carry `from = sender` with the payload passed through
verbatim; when no participant has that id the frame is dropped silently;
in both cases the registry is unchanged. -/
theorem c7_handshake_relay (m : Reg) (fuel now sender target : Nat) (ty payload : String)
    (m' : Reg) (msgs : Sends)
    (hty : ty = "offer" ∨ ty = "answer" ∨ ty = "candidate")
    (h : handleMessage m fuel now sender (.handshake ty (some target) payload) = some (m', msgs)) :
    m' = m ∧
    msgs = (if (lookup m target).isSome then [(target, OutMsg.relay ty sender payload)] else []) := by
  refine ⟨handshake_state h, ?_⟩
  simp only [handleMessage] at h
  rw [if_pos ⟨hty, rfl⟩] at h
  cases hl : lookup m target with
  | none =>
    rw [hl] at h
    simp only [Option.some_inj, Prod.mk.injEq] at h
    simp [hl, h.2.symm]
  | some c =>
    rw [hl] at h
    simp only [Option.some_inj, Prod.mk.injEq] at h
    simp [hl, h.2.symm]

/-- Witness for C7: relaying an offer from participant 1 to the
broadcaster 0 in `mTwoB`. -/
theorem c7_handshake_witness :
    ("offer" = "offer" ∨ "offer" = "answer" ∨ "offer" = "candidate") ∧
    mTwoB = mTwoB ∧
    [(0, OutMsg.relay "offer" 1 "sdp")] =
      (if (lookup mTwoB 0).isSome then [(0, OutMsg.relay "offer" 1 "sdp")] else []) :=
  ⟨Or.inl rfl,
   c7_handshake_relay mTwoB 4 0 1 0 "offer" "sdp" mTwoB
     [(0, OutMsg.relay "offer" 1 "sdp")] (Or.inl rfl) (by decide)⟩

/- ------------------------------------------------------------------ -/
/- Claim C9                                                            -/
/- ------------------------------------------------------------------ -/

/-- Any projection of the whole registry unchanged by the update
function. -/
theorem map_proj_updateEntry {α : Type} (g : Client → α) (f : Client → Client)
    (hf : ∀ c, g (f c) = g c) :
    ∀ (m : Reg) (k : Nat),
      (updateEntry m k f).map (fun p => (p.1, g p.2)) = m.map (fun p => (p.1, g p.2)) := by
  intro m
  induction m with
  | nil => intro k; rfl
  | cons p rest ih =>
    intro k
    obtain ⟨k', c⟩ := p
    by_cases hk : k' = k
    · subst hk
      simp [updateEntry, hf]
    · simp [updateEntry, hk, ih]

/-- C9: a heartbeat from a live participant sends nothing and mutates
nothing but that participant's `lastSeen`: the id, role, parent and
children of every registry entry (hence also registry membership) are
identical before and after, and the sender's `lastSeen` becomes the
current time. -/
theorem c9_heartbeat_frame (m : Reg) (fuel now sender : Nat) (m' : Reg) (msgs : Sends)
    (h : handleMessage m fuel now sender .heartbeat = some (m', msgs)) :
    msgs = [] ∧
    m'.map (fun p => (p.1, p.2.role, p.2.parentId, p.2.children)) =
      m.map (fun p => (p.1, p.2.role, p.2.parentId, p.2.children)) ∧
    (lookup m' sender).map Client.lastSeen = some now := by
  obtain ⟨hm, hmsgs⟩ := heartbeat_state h
  subst hm
  refine ⟨hmsgs, map_proj_updateEntry (fun c => (c.role, c.parentId, c.children))
    (fun c => { c with lastSeen := now }) (fun c => rfl) m sender, ?_⟩
  have hpres : (lookup m sender).isSome := by
    unfold handleMessage at h
    cases hl : lookup m sender with
    | none => rw [hl] at h; simp at h
    | some c => simp
  rw [lookup_updateEntry_self]
  cases hl : lookup m sender with
  | none => rw [hl] at hpres; simp at hpres
  | some c => simp

/-- Witness for C9: participant 1 heartbeats in `mTwoB` at time 5. -/
theorem c9_heartbeat_witness :
    ([] : Sends) = [] ∧
    (updateEntry mTwoB 1 (fun c => { c with lastSeen := 5 })).map
        (fun p => (p.1, p.2.role, p.2.parentId, p.2.children)) =
      mTwoB.map (fun p => (p.1, p.2.role, p.2.parentId, p.2.children)) ∧
    (lookup (updateEntry mTwoB 1 (fun c => { c with lastSeen := 5 })) 1).map Client.lastSeen = some 5 :=
  c9_heartbeat_frame mTwoB 4 5 1 (updateEntry mTwoB 1 (fun c => { c with lastSeen := 5 })) []
    (by decide)

/- ------------------------------------------------------------------ -/
/- Claim C8                                                            -/
/- ------------------------------------------------------------------ -/

/-- C8 counterexample: in the part_005 tree-relay variant a `metadata`
frame from listener 1 (not the broadcaster) is forwarded to its child 2,
so a non-broadcaster `metadata` sender is not always a silent drop with
no recipients, refuting the claim as stated. -/
theorem c8_listener_metadata_forwarded :
    p5TreeMetadata mTree 1 "song" = some (mTree, [(2, OutMsg.metadata "song")]) ∧
    ([(2, OutMsg.metadata "song")] : Sends) ≠ [] := by
  constructor
  · decide
  · decide

/-- C8 amended: in `src/server.js`, a `cmd` or `metadata` frame from a
sender whose role is not broadcaster produces no sends and leaves the
registry unchanged, and from the broadcaster it is fanned out to every
registry entry (the part_005 tree-relay variant instead forwards a
listener sender's metadata to its direct children, as the counterexample
shows). -/
theorem c8_cmd_metadata_gate (m : Reg) (fuel now sender : Nat) (payload : String)
    (entry : Client) (he : lookup m sender = some entry) :
    handleMessage m fuel now sender (.cmd payload) =
      some (m, if entry.role = some "broadcaster"
               then m.map (fun p => (p.1, OutMsg.cmd payload)) else []) ∧
    handleMessage m fuel now sender (.metadata payload) =
      some (m, if entry.role = some "broadcaster"
               then m.map (fun p => (p.1, OutMsg.metadata payload)) else []) := by
  constructor
  · simp only [handleMessage, he]
    by_cases hr : entry.role = some "broadcaster"
    · rw [if_pos hr, if_pos hr]
    · rw [if_neg hr, if_neg hr]
  · simp only [handleMessage, he]
    by_cases hr : entry.role = some "broadcaster"
    · rw [if_pos hr, if_pos hr]
    · rw [if_neg hr, if_neg hr]

/-- Witness for the amended C8: listener 1 of `mTree` sends `cmd` and
`metadata`; both are dropped with no recipients since its role is not
broadcaster. -/
theorem c8_cmd_metadata_witness :
    handleMessage mTree 4 0 1 (.cmd "play") =
      some (mTree, if (lClient (some 0) [2] "fmL1").role = some "broadcaster"
                   then mTree.map (fun p => (p.1, OutMsg.cmd "play")) else []) ∧
    handleMessage mTree 4 0 1 (.metadata "play") =
      some (mTree, if (lClient (some 0) [2] "fmL1").role = some "broadcaster"
                   then mTree.map (fun p => (p.1, OutMsg.metadata "play")) else []) :=
  c8_cmd_metadata_gate mTree 4 0 1 "play" (lClient (some 0) [2] "fmL1") (by decide)

/- ------------------------------------------------------------------ -/
/- Claim C1                                                            -/
/- ------------------------------------------------------------------ -/

/-- C1: evaluation of the failing input.  `mCycle` is the acyclic state
reached by registering broadcaster 0 and listeners 1 and 2 (parents
`1 -> 0`, `2 -> 0`, no self-parent).  When broadcaster 0 closes, the
server.js close handler reassigns each orphan with `bfsFindParent()` and
no exclusion set; the dying broadcaster is still in the registry and at
capacity, so the BFS descends to the just-detached child 1 and returns
it, producing `parent(1) = 1` — a cycle of length 1, violating the
acyclicity invariant the claim states. -/
theorem c1_close_creates_self_parent :
    (lookup mCycle 1).map Client.parentId = some (some 0) ∧
    ((closeHandler mCycle 9 0).bind (fun p => lookup p.1 1)).map Client.parentId
      = some (some 1) := by
  constructor
  · decide
  · decide

/- ------------------------------------------------------------------ -/
/- Claim C5                                                            -/
/- ------------------------------------------------------------------ -/

/-- C5 counterexample: in `src/server.js` the close handler runs the BFS
with no exclusion set at all.  Closing broadcaster 0 of `mDead`, the BFS
run for its orphaned child 1 returns the dying node 0 itself (still
registered and under capacity), so child 1 is linked to the dead node:
after the close completes, `parent(1) = 0` while id 0 is no longer in the
registry — the BFS did return `dead_id`, refuting the claim that the
close-path BFS runs with `exclude = {dead_id, c}` and never returns
either. -/
theorem c5_close_reassigns_to_dead :
    ((closeHandler mDead 9 0).bind (fun p => lookup p.1 1)).map Client.parentId
      = some (some 0) ∧
    (closeHandler mDead 9 0).map (fun p => lookup p.1 0) = some none := by
  constructor
  · decide
  · decide

/-- Parent pointer read back after the link-and-backup update sequence
shared by the reassignment paths. -/
theorem parent_after_link (m : Reg) (ch np : Nat) (bp : Option Nat) (child : Client)
    (hch : lookup m ch = some child) (hne : np ≠ ch) :
    (lookup (updateEntry (updateEntry (updateEntry m ch (fun c => { c with parentId := some np }))
        np (fun c => { c with children := addChild c.children ch }))
        ch (fun c => { c with backupParent := bp })) ch).map Client.parentId = some (some np) := by
  rw [lookup_updateEntry_self,
      lookup_updateEntry_ne _ _ _ _ (fun hc => hne hc.symm),
      lookup_updateEntry_self, hch]
  simp

/-- C5 amended: in the part_005 cascade variant the close handler clears
the orphan's parent and runs the BFS with `exclude = {dead, child}`; when
that BFS finds a parent `p`, `p` is neither the dead node nor the child
itself, the child's parent becomes `p`, and `listener-joined` and
`reassigned` are sent; when it finds none the child is left orphan with a
null `reassigned`.  (`src/server.js` passes no exclusion set, as the
counterexample shows.) -/
theorem c5_p5_reassign_excludes (m : Reg) (fuel dead ch : Nat) (m' : Reg) (msgs : Sends)
    (child : Client) (hch : lookup m ch = some child)
    (h : p5ReassignChild m fuel dead ch = some (m', msgs)) :
    match findParentNode (updateEntry m ch (fun c => { c with parentId := none }))
        [dead, ch] fuel with
    | none => True
    | some none =>
        (lookup m' ch).map Client.parentId = some none ∧
        msgs = [(ch, OutMsg.reassigned none)]
    | some (some p) =>
        p ≠ dead ∧ p ≠ ch ∧ (lookup m' ch).map Client.parentId = some (some p) ∧
        msgs = [(p, OutMsg.listenerJoined ch child.nodeLabel),
                (ch, OutMsg.reassigned (some p))] := by
  unfold p5ReassignChild at h
  simp only [hch] at h
  cases hb : findParentNode (updateEntry m ch fun c => { c with parentId := none })
      [dead, ch] fuel with
  | none => rw [hb] at h; simp at h
  | some r =>
    rw [hb] at h
    cases r with
    | none =>
      simp only [Option.some_inj, Prod.mk.injEq] at h
      obtain ⟨hm, hmsg⟩ := h
      subst hm
      refine ⟨?_, hmsg.symm⟩
      rw [lookup_updateEntry_self, hch]
      simp
    | some np =>
      obtain ⟨⟨c, hcnp, hcapnp⟩, hex⟩ := findParentNode_found hb
      have hnd : np ≠ dead := fun hc => hex (by simp [hc])
      have hnc : np ≠ ch := fun hc => hex (by simp [hc])
      simp only [Option.some_inj, Prod.mk.injEq] at h
      obtain ⟨hm, hmsg⟩ := h
      subst hm
      refine ⟨hnd, hnc, ?_, hmsg.symm⟩
      have hch1 : lookup (updateEntry m ch fun c => { c with parentId := none }) ch
          = some { child with parentId := none } := by
        rw [lookup_updateEntry_self, hch]
        rfl
      exact parent_after_link _ ch np _ _ hch1 hnc

/-- Witness for the amended C5: node 1 of `mTree` dies; its child 2 is
reassigned to the broadcaster 0, which is neither the dead node 1 nor the
child 2. -/
theorem c5_p5_reassign_witness :
    (0 : Nat) ≠ 1 ∧ (0 : Nat) ≠ 2 ∧
    (lookup c5Res.1 2).map Client.parentId = some (some 0) ∧
    c5Res.2 = [(0, OutMsg.listenerJoined 2 "fmL2"), (2, OutMsg.reassigned (some 0))] :=
  c5_p5_reassign_excludes mTree 9 1 2 c5Res.1 c5Res.2 (lClient (some 1) [] "fmL2")
    (by decide) (by decide)

/- ------------------------------------------------------------------ -/
/- Role-preservation machinery for C3 and C6                           -/
/- ------------------------------------------------------------------ -/

theorem roleView_updateEntry (f : Client → Client) (hf : ∀ c, (f c).role = c.role)
    (m : Reg) (k : Nat) : roleView (updateEntry m k f) = roleView m :=
  map_proj_updateEntry Client.role f hf m k

/-- The role view is unchanged by the link-and-backup update sequence
shared by the placement and reassignment paths. -/
theorem roleView_link (m : Reg) (ch np : Nat) (bp pnew : Option Nat) :
    roleView (updateEntry (updateEntry (updateEntry m ch (fun c => { c with parentId := pnew }))
        np (fun c => { c with children := addChild c.children ch }))
        ch (fun c => { c with backupParent := bp })) = roleView m :=
  (roleView_updateEntry (fun c => { c with backupParent := bp }) (fun c => rfl)
      (updateEntry (updateEntry m ch (fun c => { c with parentId := pnew }))
        np (fun c => { c with children := addChild c.children ch })) ch).trans
    ((roleView_updateEntry (fun c => { c with children := addChild c.children ch }) (fun c => rfl)
        (updateEntry m ch (fun c => { c with parentId := pnew })) np).trans
      (roleView_updateEntry (fun c => { c with parentId := pnew }) (fun c => rfl) m ch))

theorem roleView_reassignChild {m : Reg} {fuel cid : Nat} {m' : Reg} {msgs : Sends}
    (h : reassignChild m fuel cid = some (m', msgs)) : roleView m' = roleView m := by
  unfold reassignChild at h
  cases hl : lookup m cid with
  | none =>
    rw [hl] at h
    simp only [Option.some_inj, Prod.mk.injEq] at h
    exact h.1 ▸ rfl
  | some child =>
    simp only [hl] at h
    cases hb : bfsFindParent m fuel with
    | none => rw [hb] at h; simp at h
    | some r =>
      cases r with
      | none =>
        rw [hb] at h
        simp only [Option.some_inj, Prod.mk.injEq] at h
        exact h.1 ▸ roleView_updateEntry (fun c => { c with parentId := none }) (fun c => rfl) m cid
      | some np =>
        rw [hb] at h
        simp only [Option.some_inj, Prod.mk.injEq] at h
        exact h.1 ▸ roleView_link m cid np _ (some np)

theorem roleView_attachRootless {fuel : Nat} :
    ∀ ids m m' msgs, attachRootless fuel ids m = some (m', msgs) → roleView m' = roleView m := by
  intro ids
  induction ids with
  | nil =>
    intro m m' msgs h
    unfold attachRootless at h
    simp only [Option.some_inj, Prod.mk.injEq] at h
    exact h.1 ▸ rfl
  | cons cid rest ih =>
    intro m m' msgs h
    unfold attachRootless at h
    cases hl : lookup m cid with
    | none =>
      rw [hl] at h
      exact ih m m' msgs h
    | some c =>
      simp only [hl] at h
      by_cases hcond : c.role = some "listener" ∧ c.parentId = none
      · rw [if_pos hcond] at h
        cases hr : reassignChild m fuel cid with
        | none => rw [hr] at h; simp at h
        | some pr =>
          obtain ⟨m1, msgs1⟩ := pr
          simp only [hr] at h
          cases ha : attachRootless fuel rest m1 with
          | none => rw [ha] at h; simp at h
          | some pr2 =>
            obtain ⟨m2, msgs2⟩ := pr2
            rw [ha] at h
            simp only [Option.some_inj, Prod.mk.injEq] at h
            exact h.1 ▸ ((ih m1 m2 msgs2 ha).trans (roleView_reassignChild hr))
      · rw [if_neg hcond] at h
        exact ih m m' msgs h

/-- Registries with the same role view agree on the role read through
every lookup. -/
theorem lookup_role_of_roleView :
    ∀ (m1 m2 : Reg), roleView m1 = roleView m2 →
      ∀ k, (lookup m1 k).map Client.role = (lookup m2 k).map Client.role := by
  intro m1
  induction m1 with
  | nil =>
    intro m2 hrv k
    cases m2 with
    | nil => rfl
    | cons p r => simp [roleView] at hrv
  | cons p r1 ih =>
    intro m2 hrv k
    cases m2 with
    | nil => simp [roleView] at hrv
    | cons q r2 =>
      obtain ⟨k1, c1⟩ := p
      obtain ⟨k2, c2⟩ := q
      simp only [roleView, List.map_cons, List.cons.injEq, Prod.mk.injEq] at hrv
      obtain ⟨⟨hk, hrole⟩, hrest⟩ := hrv
      subst hk
      by_cases hkk : k1 = k
      · simp [lookup, hkk, hrole]
      · simp only [lookup, if_neg hkk]
        exact ih r2 hrest k

/-- The role view after any message: a register message sets the sender's
role to `role || "listener"` and touches no other role; every other
message type leaves every role unchanged. -/
theorem roleView_step (m : Reg) (fuel now sender : Nat) (msg : InMsg)
    (m' : Reg) (msgs : Sends)
    (h : handleMessage m fuel now sender msg = some (m', msgs)) :
    match msg with
    | .register role cust => roleView m' = roleView (applyRegisterRole m sender role cust)
    | _ => roleView m' = roleView m := by
  cases msg with
  | heartbeat =>
    obtain ⟨hm, -⟩ := heartbeat_state h
    exact hm ▸ roleView_updateEntry (fun c => { c with lastSeen := now }) (fun c => rfl) m sender
  | register role cust =>
    simp only [handleMessage] at h
    unfold registerHandler at h
    cases hl : lookup m sender with
    | none => rw [hl] at h; simp at h
    | some entry0 =>
      simp only [hl] at h
      by_cases hbr : jsOr role "listener" = "broadcaster"
      · rw [if_pos hbr] at h
        cases ha : attachRootless fuel ((applyRegisterRole m sender role cust).map Prod.fst)
            (applyRegisterRole m sender role cust) with
        | none => rw [ha] at h; simp at h
        | some pr =>
          obtain ⟨m2, msgs2⟩ := pr
          rw [ha] at h
          simp only [Option.some_inj, Prod.mk.injEq] at h
          exact h.1 ▸ roleView_attachRootless _ _ m2 msgs2 ha
      · rw [if_neg hbr] at h
        cases hb : bfsFindParent (applyRegisterRole m sender role cust) fuel with
        | none => rw [hb] at h; simp at h
        | some r =>
          cases r with
          | none =>
            rw [hb] at h
            simp only [Option.some_inj, Prod.mk.injEq] at h
            exact h.1 ▸ roleView_updateEntry
              (fun c => { c with parentId := none, backupParent := none }) (fun c => rfl)
              (applyRegisterRole m sender role cust) sender
          | some pid =>
            rw [hb] at h
            simp only [Option.some_inj, Prod.mk.injEq] at h
            exact h.1 ▸ roleView_link (applyRegisterRole m sender role cust) sender pid _ (some pid)
  | handshake ty t pl => exact (handshake_state h) ▸ rfl
  | cmd pl => exact (cmd_state h) ▸ rfl
  | metadata pl => exact (metadata_state h) ▸ rfl
  | roomMessage pl => exact (roomMessage_state h) ▸ rfl
  | other => exact (other_state h) ▸ rfl

/- ------------------------------------------------------------------ -/
/- Claim C3                                                            -/
/- ------------------------------------------------------------------ -/

/-- C3 counterexample: `mTwoB` contains exactly one broadcaster, yet
processing `register{role: broadcaster}` from the fresh participant 1
produces a registry with two broadcasters — the handler never checks for
an existing broadcaster. -/
theorem c3_second_broadcaster_created :
    countBroadcasters mTwoB = 1 ∧
    (handleMessage mTwoB 4 0 1 (.register (some "broadcaster") none)).map
      (fun p => countBroadcasters p.1) = some 2 := by
  constructor
  · decide
  · decide

/-- C3 amended: the register handler sets the sender's role to
broadcaster unconditionally, so a `register{broadcaster}` processed in a
state that already holds a distinct broadcaster yields a state with two
participants whose role is broadcaster; states with more than one
broadcaster are reachable. -/
theorem c3_register_allows_second_broadcaster (m : Reg) (fuel now sender b : Nat)
    (cust : Option String) (entry cb : Client) (m' : Reg) (msgs : Sends)
    (hs : lookup m sender = some entry)
    (hb : lookup m b = some cb) (hcb : cb.role = some "broadcaster") (hbs : b ≠ sender)
    (h : handleMessage m fuel now sender (.register (some "broadcaster") cust) = some (m', msgs)) :
    (lookup m' b).map Client.role = some (some "broadcaster") ∧
    (lookup m' sender).map Client.role = some (some "broadcaster") := by
  have hrv : roleView m' = roleView (applyRegisterRole m sender (some "broadcaster") cust) :=
    roleView_step m fuel now sender (.register (some "broadcaster") cust) m' msgs h
  have hpt := lookup_role_of_roleView _ _ hrv
  constructor
  · rw [hpt b]
    unfold applyRegisterRole
    rw [lookup_updateEntry_ne _ _ _ _ hbs, hb]
    simp [hcb]
  · rw [hpt sender]
    unfold applyRegisterRole
    rw [lookup_updateEntry_self, hs]
    simp [jsOr]

/-- Witness for the amended C3: participant 1 of `mTwoB` registers as
broadcaster next to the existing broadcaster 0; both end up with role
broadcaster. -/
theorem c3_second_broadcaster_witness :
    (lookup c3Res.1 0).map Client.role = some (some "broadcaster") ∧
    (lookup c3Res.1 1).map Client.role = some (some "broadcaster") :=
  c3_register_allows_second_broadcaster mTwoB 9 0 1 0 none (freshClient "fmN" 0) (bClient [])
    c3Res.1 c3Res.2 (by decide) (by decide) (by decide) (by decide) (by decide)

/- ------------------------------------------------------------------ -/
/- Claim C6                                                            -/
/- ------------------------------------------------------------------ -/

/-- C6 counterexample: the lone broadcaster of `mSoloB` sends a second
`register` with role listener on the same connection; its role becomes
listener, so a broadcaster can transition to another role. -/
theorem c6_broadcaster_rerole :
    (lookup mSoloB 0).map Client.role = some (some "broadcaster") ∧
    ((handleMessage mSoloB 4 0 0 (.register (some "listener") none)).bind
      (fun p => lookup p.1 0)).map Client.role = some (some "listener") := by
  constructor
  · decide
  · decide

/-- C6 amended: every `register` message overwrites the sender's role
with `role || "listener"` (so a later register can change an
already-assigned role, including broadcaster), and no other message type
changes any participant's role. -/
theorem c6_role_set_by_every_register (m : Reg) (fuel now sender : Nat) (msg : InMsg)
    (m' : Reg) (msgs : Sends)
    (h : handleMessage m fuel now sender msg = some (m', msgs)) :
    match msg with
    | .register role cust => roleView m' = roleView (applyRegisterRole m sender role cust)
    | _ => roleView m' = roleView m :=
  roleView_step m fuel now sender msg m' msgs h

/-- Witness for the amended C6: the broadcaster of `mSoloB` re-registers
as listener; the resulting role view equals the one-step role overwrite. -/
theorem c6_role_set_witness :
    roleView c6Res.1 = roleView (applyRegisterRole mSoloB 0 (some "listener") none) :=
  c6_role_set_by_every_register mSoloB 9 0 0 (.register (some "listener") none)
    c6Res.1 c6Res.2 (by decide)

/- ------------------------------------------------------------------ -/
/- Claim C4                                                            -/
/- ------------------------------------------------------------------ -/

/-- The short-circuiting BFS loop of the code returns exactly the first
element of the specification-side visit order that has spare capacity. -/
theorem bfsLoop_eq_visit_find {m : Reg} :
    ∀ fuel q l, bfsVisit m fuel q = some l →
      bfsLoop m fuel q = some (l.find? (hasCapacityAt m)) := by
  intro fuel
  induction fuel with
  | zero => intro q l h; simp [bfsVisit] at h
  | succ n ih =>
    intro q l h
    match q with
    | [] =>
      simp only [bfsVisit, Option.some_inj] at h
      subst h
      simp [bfsLoop, List.find?]
    | id :: rest =>
      rw [bfsVisit] at h
      cases hl : lookup m id with
      | none =>
        rw [hl] at h
        rw [bfsLoop, hl]
        exact ih rest l h
      | some c =>
        simp only [hl] at h
        cases hv : bfsVisit m n (rest ++ c.children) with
        | none => rw [hv] at h; simp at h
        | some l' =>
          rw [hv] at h
          simp only [Option.map_some', Option.some_inj] at h
          subst h
          rw [bfsLoop]
          simp only [hl]
          by_cases hcap : c.children.length < roleLimit c
          · rw [if_pos hcap]
            have hp : hasCapacityAt m id = true := by
              unfold hasCapacityAt
              rw [hl]
              simpa using hcap
            simp [List.find?, hp]
          · rw [if_neg hcap]
            have hp : hasCapacityAt m id = false := by
              unfold hasCapacityAt
              rw [hl]
              simpa using hcap
            rw [ih (rest ++ c.children) l' hv]
            simp [List.find?, hp]

/-- The code's `bfsFindParent` refines the specification-side placement
`placeSpec` whenever the full visit order terminates within the fuel. -/
theorem bfsFindParent_eq_placeSpec {m : Reg} {fuel : Nat} {res : Option Nat}
    (hspec : placeSpec m fuel = some res) : bfsFindParent m fuel = some res := by
  unfold placeSpec at hspec
  unfold bfsFindParent
  cases hr : findRootBroadcaster m with
  | none =>
    rw [hr] at hspec
    exact hspec
  | some r =>
    rw [hr] at hspec
    have hspec' : (bfsVisit m fuel [r]).map (fun l => List.find? (hasCapacityAt m) l)
        = some res := hspec
    show bfsLoop m fuel [r] = some res
    cases hv : bfsVisit m fuel [r] with
    | none => rw [hv] at hspec'; simp at hspec'
    | some l =>
      rw [hv] at hspec'
      simp only [Option.map_some', Option.some_inj] at hspec'
      rw [bfsLoop_eq_visit_find fuel [r] l hv, hspec']

/-- Backup-parent writes do not change the parent pointer read anywhere. -/
theorem parentId_update_backup (m : Reg) (j k : Nat) (bp : Option Nat) :
    (lookup (updateEntry m j (fun c => { c with backupParent := bp })) k).map Client.parentId
      = (lookup m k).map Client.parentId :=
  lookup_update_map Client.parentId m j (fun c => { c with backupParent := bp }) (fun c => rfl) k

/-- Children writes do not change the parent pointer read anywhere. -/
theorem parentId_update_children (m : Reg) (j k ch : Nat) :
    (lookup (updateEntry m j (fun c => { c with children := addChild c.children ch })) k).map
        Client.parentId
      = (lookup m k).map Client.parentId :=
  lookup_update_map Client.parentId m j (fun c => { c with children := addChild c.children ch })
    (fun c => rfl) k

/-- C4: listener placement follows the specification BFS.  When
registering a listener, the parent the code installs is exactly
`placeSpec` of the role-updated registry: the first node of the
breadth-first visit order from the broadcaster whose child count is below
its capacity; when there is no broadcaster or every visited node is at
capacity (`placeSpec` yields no parent), the listener is left with
`parent = none` and is sent `room-assigned` with a null parent. -/
theorem c4_place_follows_bfs (m : Reg) (fuel now sender : Nat) (cust : Option String)
    (entry0 : Client) (m' : Reg) (msgs : Sends) (res : Option Nat)
    (hs : lookup m sender = some entry0)
    (h : handleMessage m fuel now sender (.register (some "listener") cust) = some (m', msgs))
    (hspec : placeSpec (applyRegisterRole m sender (some "listener") cust) fuel = some res) :
    match res with
    | some p =>
        (lookup m' sender).map Client.parentId = some (some p) ∧
        msgs = [(sender, OutMsg.roomAssigned entry0.nodeLabel (some p)),
                (p, OutMsg.listenerJoined sender entry0.nodeLabel)]
    | none =>
        (lookup m' sender).map Client.parentId = some none ∧
        msgs = [(sender, OutMsg.roomAssigned entry0.nodeLabel none)] := by
  have hb := bfsFindParent_eq_placeSpec hspec
  simp only [handleMessage] at h
  unfold registerHandler at h
  simp only [hs] at h
  rw [if_neg (by decide : ¬ (jsOr (some "listener") "listener" = "broadcaster"))] at h
  cases res with
  | none =>
    simp only [hb] at h
    simp only [Option.some_inj, Prod.mk.injEq] at h
    obtain ⟨hm, hmsg⟩ := h
    refine ⟨?_, hmsg.symm⟩
    rw [← hm, lookup_updateEntry_self]
    unfold applyRegisterRole
    rw [lookup_updateEntry_self, hs]
    rfl
  | some p =>
    simp only [hb] at h
    simp only [Option.some_inj, Prod.mk.injEq] at h
    obtain ⟨hm, hmsg⟩ := h
    refine ⟨?_, hmsg.symm⟩
    rw [← hm, parentId_update_backup, parentId_update_children, lookup_updateEntry_self]
    unfold applyRegisterRole
    rw [lookup_updateEntry_self, hs]
    rfl

/-- Witness for C4: listener 1 registers in `mTwoB`; the specification
BFS picks the broadcaster 0, and the code indeed installs parent 0 and
sends `room-assigned` and `listener-joined` accordingly. -/
theorem c4_place_witness :
    (lookup c4Res.1 1).map Client.parentId = some (some 0) ∧
    c4Res.2 = [(1, OutMsg.roomAssigned "fmN" (some 0)), (0, OutMsg.listenerJoined 1 "fmN")] :=
  c4_place_follows_bfs mTwoB 9 0 1 none (freshClient "fmN" 0) c4Res.1 c4Res.2 (some 0)
    (by decide) (by decide) (by decide)

/- ------------------------------------------------------------------ -/
/- Claim C10                                                           -/
/- ------------------------------------------------------------------ -/

theorem mem_le_maxChildLen :
    ∀ {m : Reg} {p : Nat × Client}, p ∈ m → (Prod.snd p).children.length ≤ maxChildLen m := by
  intro m
  induction m with
  | nil => intro p hp; simp at hp
  | cons q rest ih =>
    intro p hp
    rcases List.mem_cons.mp hp with hp | hp
    · subst hp
      exact le_max_left _ _
    · exact le_trans (ih hp) (le_max_right _ _)

theorem list_sum_le_length_mul {l : List Nat} {b : Nat} (h : ∀ x ∈ l, x ≤ b) :
    l.sum ≤ l.length * b := by
  induction l with
  | nil => simp
  | cons x rest ih =>
    simp only [List.sum_cons, List.length_cons]
    have hx := h x (List.mem_cons_self _ _)
    have hr := ih (fun y hy => h y (List.mem_cons_of_mem _ hy))
    calc x + rest.sum ≤ b + rest.length * b := Nat.add_le_add hx hr
      _ = (rest.length + 1) * b := by ring

/-- Fuel sufficiency for the visited-set-free BFS queue loop: if along
every children edge reachable from the root some rank strictly
decreases, the loop finishes before the fuel runs out. -/
theorem bfsLoop_total (m : Reg) (root : Nat) (rank : Nat → Nat) (B : Nat)
    (hB1 : 1 ≤ B)
    (hB : ∀ k c, lookup m k = some c → c.children.length < B)
    (hrank : ∀ x c y, ReachC m root x → lookup m x = some c → y ∈ c.children → rank y < rank x) :
    ∀ fuel q, (∀ x ∈ q, ReachC m root x) →
      (q.map (fun x => B ^ rank x)).sum < fuel → (bfsLoop m fuel q).isSome := by
  intro fuel
  induction fuel with
  | zero => intro q hq hmu; omega
  | succ n ih =>
    intro q hq hmu
    match q with
    | [] => simp [bfsLoop]
    | x :: rest =>
      have hpow1 : 1 ≤ B ^ rank x := Nat.one_le_pow _ _ hB1
      have hmu' : B ^ rank x + (rest.map (fun y => B ^ rank y)).sum < n + 1 := by
        simpa [List.map_cons, List.sum_cons] using hmu
      rw [bfsLoop]
      cases hl : lookup m x with
      | none =>
        apply ih rest (fun y hy => hq y (List.mem_cons_of_mem _ hy))
        omega
      | some c =>
        by_cases hcap : c.children.length < roleLimit c
        · simp [hcap]
        · simp only [if_neg hcap]
          have hrx : ReachC m root x := hq x (List.mem_cons_self _ _)
          apply ih (rest ++ c.children)
          · intro y hy
            rcases List.mem_append.mp hy with hy | hy
            · exact hq y (List.mem_cons_of_mem _ hy)
            · exact ReachC.step x c y hrx hl hy
          · have hchsum : ((c.children).map (fun y => B ^ rank y)).sum < B ^ rank x := by
              by_cases hch : c.children = []
              · rw [hch]
                simpa using hpow1
              · obtain ⟨y0, hy0⟩ := List.exists_mem_of_ne_nil c.children hch
                have hrk1 : 1 ≤ rank x := by
                  have := hrank x c y0 hrx hl hy0
                  omega
                have hbound : ∀ z ∈ (c.children).map (fun y => B ^ rank y),
                    z ≤ B ^ (rank x - 1) := by
                  intro z hz
                  obtain ⟨y, hy, hzy⟩ := List.mem_map.mp hz
                  subst hzy
                  have hry := hrank x c y hrx hl hy
                  exact Nat.pow_le_pow_right hB1 (by omega)
                have hsum := list_sum_le_length_mul hbound
                have hlen : ((c.children).map (fun y => B ^ rank y)).length = c.children.length := by
                  simp
                have hlenB := hB x c hl
                have hBp : 0 < B ^ (rank x - 1) := Nat.pos_pow_of_pos _ (by omega)
                have hmul : c.children.length * B ^ (rank x - 1) < B * B ^ (rank x - 1) :=
                  Nat.mul_lt_mul_of_lt_of_le hlenB (le_refl _) hBp
                have hBB : B * B ^ (rank x - 1) = B ^ rank x := by
                  have : rank x - 1 + 1 = rank x := by omega
                  calc B * B ^ (rank x - 1) = B ^ (rank x - 1) * B := Nat.mul_comm _ _
                    _ = B ^ (rank x - 1 + 1) := (pow_succ B (rank x - 1)).symm
                    _ = B ^ rank x := by rw [this]
                calc ((c.children).map (fun y => B ^ rank y)).sum
                    ≤ ((c.children).map (fun y => B ^ rank y)).length * B ^ (rank x - 1) := hsum
                  _ = c.children.length * B ^ (rank x - 1) := by rw [hlen]
                  _ < B * B ^ (rank x - 1) := hmul
                  _ = B ^ rank x := hBB
            have hsplit : ((rest ++ c.children).map (fun y => B ^ rank y)).sum
                = (rest.map (fun y => B ^ rank y)).sum
                  + ((c.children).map (fun y => B ^ rank y)).sum := by
              simp
            omega

/-- C10: `bfsFindParent` terminates on every registry whose children
relation is acyclic from the broadcaster (witnessed by a rank function
that strictly decreases along every reachable children edge) and whose
reachable children ids are all registered: some finite fuel makes the
fuel-indexed embedding of the loop return. -/
theorem c10_bfs_terminates (m : Reg) (root : Nat) (rank : Nat → Nat)
    (hroot : findRootBroadcaster m = some root)
    (hrank : ∀ x c y, ReachC m root x → lookup m x = some c → y ∈ c.children → rank y < rank x)
    (hreg : ∀ x c y, ReachC m root x → lookup m x = some c → y ∈ c.children →
      (lookup m y).isSome) :
    ∃ fuel, (bfsFindParent m fuel).isSome := by
  refine ⟨(maxChildLen m + 1) ^ rank root + 1, ?_⟩
  unfold bfsFindParent
  rw [hroot]
  apply bfsLoop_total m root rank (maxChildLen m + 1) (Nat.le_add_left _ _)
  · intro k c hl
    exact Nat.lt_succ_of_le (mem_le_maxChildLen (lookup_mem hl))
  · exact hrank
  · intro x hx
    rw [List.mem_singleton.mp hx]
    exact ReachC.root
  · simp

/-- Witness for C10: the one-broadcaster registry `mSoloB` with the
constant-zero rank; the broadcaster has no children, so the rank
hypothesis is vacuous and the BFS terminates. -/
theorem c10_bfs_terminates_witness :
    findRootBroadcaster mSoloB = some 0 ∧ ∃ fuel, (bfsFindParent mSoloB fuel).isSome :=
  ⟨by decide,
   c10_bfs_terminates mSoloB 0 (fun _ => 0) (by decide)
     (by
       intro x c y hx hl hy
       have hx0 : x = 0 ∧ c = bClient [] := by
         by_cases h0 : (0 : Nat) = x
         · refine ⟨h0.symm, ?_⟩
           simp only [mSoloB, lookup, if_pos h0] at hl
           exact (Option.some_injective _ hl).symm
         · simp only [mSoloB, lookup, if_neg h0] at hl
           exact Option.noConfusion hl
       rw [hx0.2] at hy
       simp [bClient] at hy)
     (by
       intro x c y hx hl hy
       have hx0 : x = 0 ∧ c = bClient [] := by
         by_cases h0 : (0 : Nat) = x
         · refine ⟨h0.symm, ?_⟩
           simp only [mSoloB, lookup, if_pos h0] at hl
           exact (Option.some_injective _ hl).symm
         · simp only [mSoloB, lookup, if_neg h0] at hl
           exact Option.noConfusion hl
       rw [hx0.2] at hy
       simp [bClient] at hy)⟩
